import Mathlib

/-!
Shallow embedding of the Cymatic particle simulation (src/script.js with
parameter defaults from controls.js).  Machine floats are idealised as real
numbers; the ambient random draws (`Math.random()`), the audio level and the
audio-enabled flag are passed explicitly as inputs, so every source function
becomes a pure Lean function.
-/

noncomputable section

/-- Source constant: `const PLANE_SIZE = 2.4;` in script.js. -/
def PLANE_SIZE : ℝ := 2.4

/-- Source constant: `const PI = Math.PI;` in script.js. -/
def PI : ℝ := Real.pi

/-- The simulation-relevant fields of the shared `PARAMS` object from
controls.js (`m`, `n`, `patternMixX`, `patternMixY`, `vibrationStrength`);
the remaining fields (particle count, volume, isPlaying) do not enter the
per-particle update formulas and are handled separately. -/
structure ChladniParams where
  m : ℝ
  n : ℝ
  patternMixX : ℝ
  patternMixY : ℝ
  vibrationStrength : ℝ

/-- The initial values of the `PARAMS` fields in controls.js:
`m: 3, n: 2, patternMixX: 1.0, patternMixY: 1.0, vibrationStrength: 0.1`. -/
def PARAMS : ChladniParams := ⟨3, 2, 1, 1, 0.1⟩

/-- `chladni(x, y, m, n)` from script.js.  The amplitude coefficients
`PARAMS.patternMixX` and `PARAMS.patternMixY` that the source body reads from
the shared parameter object are passed explicitly as `a` and `b`. -/
def chladni (x y m n a b : ℝ) : ℝ :=
  let x' := (x + 1) / 2
  let y' := (y + 1) / 2
  let pattern1 := Real.sin (PI * n * x') * Real.sin (PI * m * y')
  let pattern2 := Real.sin (PI * m * x') * Real.sin (PI * n * y')
  a * pattern1 + b * pattern2

/-- `calculateFrequency(m, n, a, b)` from script.js. -/
def calculateFrequency (m n a b : ℝ) : ℝ :=
  let baseFreq := Real.sqrt (m * m + n * n) * 55
  let mixingEffect := Real.sqrt (a * a + b * b)
  min (max (baseFreq * mixingEffect) 20) 2000

/-- `const bound = PLANE_SIZE / 2 - 0.01;` from the boundary-conditions block
of `animate` in script.js. -/
def bound : ℝ := PLANE_SIZE / 2 - 0.01

/-- `const bounceDamping = 0.7;` from `animate` in script.js. -/
def bounceDamping : ℝ := 0.7

/-- One particle's state: the slots `positions[3i]`, `positions[3i+1]`,
`velocities[2i]`, `velocities[2i+1]` read and written by the loop body of
`animate` (the unused third position coordinate is carried by the store
model below). -/
structure ParticleState where
  x : ℝ
  y : ℝ
  vx : ℝ
  vy : ℝ

/-- `Math.sqrt(vx * vx + vy * vy)`, the speed computation of `animate`. -/
def speedOf (vx vy : ℝ) : ℝ := Real.sqrt (vx * vx + vy * vy)

/-- The `isAudioActive` branch of the `animate` loop body: Chladni force with
random direction, then normal damping.  `randAngle` stands for the draw
`Math.random() * Math.PI * 2`. -/
def activeKick (P : ChladniParams) (audioLevel randAngle : ℝ) (xNorm yNorm vx vy : ℝ) :
    ℝ × ℝ :=
  let value := chladni xNorm yNorm P.m P.n P.patternMixX P.patternMixY
  let force := value * P.vibrationStrength * (1 + audioLevel * 2)
  let randomness := (0.07 : ℝ)
  let vx1 := vx + force * Real.cos randAngle * randomness
  let vy1 := vy + force * Real.sin randAngle * randomness
  (vx1 * 0.85, vy1 * 0.85)

/-- The inactive (`else`) branch of the `animate` loop body: damping by 0.85,
then either the extra damping factor `max(0.5, 1 - speed * 2)` or a snap of
both components to exactly 0. -/
def inactiveDamp (vx vy : ℝ) : ℝ × ℝ :=
  let vx1 := vx * 0.85
  let vy1 := vy * 0.85
  let speed := speedOf vx1 vy1
  if speed > 0.001 then
    let dampingFactor := max 0.5 (1 - speed * 2)
    (vx1 * dampingFactor, vy1 * dampingFactor)
  else
    (0, 0)

/-- One axis of the boundary conditions of `animate`:
`if (Math.abs(x) > bound) then x = Math.sign(x) * bound; vx *= -bounceDamping`. -/
def reflect1D (c v : ℝ) : ℝ × ℝ :=
  if |c| > bound then (Real.sign c * bound, v * (-bounceDamping)) else (c, v)

/-- The full per-particle body of the `animate` loop in script.js:
normalisation, force or damping, position integration, boundary reflection. -/
def stepParticle (P : ChladniParams) (audioEnabled : Bool) (audioLevel randAngle : ℝ)
    (s : ParticleState) : ParticleState :=
  let xNorm := s.x / (PLANE_SIZE / 2)
  let yNorm := s.y / (PLANE_SIZE / 2)
  let v :=
    if audioEnabled = true ∧ audioLevel > 0.01 then
      activeKick P audioLevel randAngle xNorm yNorm s.vx s.vy
    else
      inactiveDamp s.vx s.vy
  let px := reflect1D (s.x + v.1) v.1
  let py := reflect1D (s.y + v.2) v.2
  ⟨px.1, py.1, px.2, py.2⟩

/-- The per-frame inputs of one `animate` tick that reach a single particle:
the shared pattern parameters, the audio-enabled flag, the audio level, and
that particle's random angle draw. -/
structure StepInput where
  params : ChladniParams
  audioEnabled : Bool
  audioLevel : ℝ
  randAngle : ℝ

/-- `isAudioActive = audio.isAudioEnabled() && audioLevel > 0.01` of
`animate`, for one step's inputs. -/
def audioActive (i : StepInput) : Prop :=
  i.audioEnabled = true ∧ i.audioLevel > 0.01

/-- One particle's update for one tick with inputs `i`. -/
def stepWith (i : StepInput) (s : ParticleState) : ParticleState :=
  stepParticle i.params i.audioEnabled i.audioLevel i.randAngle s

/-- `n` consecutive `animate` ticks applied to one particle, tick `k` using
inputs `inp k`. -/
def stepN (inp : ℕ → StepInput) : ℕ → ParticleState → ParticleState
  | 0, s => s
  | k + 1, s => stepWith (inp k) (stepN inp k s)

/-- One whole frame of `animate`: the loop `for (i = 0; i < PARAMS.particles;
i++)` over the store, particle `i` drawing the random angle `angles i`.  Each
iteration reads only the slots of index `i` before writing them back, so the
in-place array update of the source is the same as this index-wise map. -/
def stepStore (P : ChladniParams) (audioEnabled : Bool) (audioLevel : ℝ)
    (angles : ℕ → ℝ) (store : List ParticleState) : List ParticleState :=
  List.ofFn fun i : Fin store.length =>
    stepParticle P audioEnabled audioLevel (angles i) (store.get i)

/-- The particle store: the parallel arrays `particlePositions` (3 entries
per particle, third coordinate kept for rendering) and `particleVelocities`
(2 entries per particle) of script.js, grouped per particle. -/
structure Store where
  positions : List (ℝ × ℝ × ℝ)
  velocities : List (ℝ × ℝ)

/-- The first-creation branch of `createParticles` in script.js: every
particle at `(Math.random() - 0.5) * PLANE_SIZE` in x and y, z = 0, zero
velocity.  `ux` and `uy` are the random draws. -/
def createStore (count : ℕ) (ux uy : ℕ → ℝ) : Store where
  positions := List.ofFn fun i : Fin count =>
    ((ux i - 0.5) * PLANE_SIZE, (uy i - 0.5) * PLANE_SIZE, 0)
  velocities := List.ofFn fun _ : Fin count => (0, 0)

/-- The resize branch of `createParticles` in script.js (an existing store is
rebuilt at the new `PARAMS.particles` count): indices below
`preserveCount = min(currentCount, newCount)` are copied verbatim; higher
indices clone a random existing particle
(`sourceIdx = Math.floor(Math.random() * preserveCount)`, draw `u`) with
jitter `(Math.random() - 0.5) * 0.1` per coordinate (draws `jx`, `jy`),
z = 0, and half the source's velocity.  Out-of-range array reads (possible
only for a degenerate empty store, where the source would read `undefined`)
are modelled by `getD` defaults. -/
def resizeStore (store : Store) (newCount : ℕ) (u jx jy : ℕ → ℝ) : Store :=
  let currentCount := store.positions.length
  let preserveCount := min currentCount newCount
  let offsetScale : ℝ := 0.1
  { positions := List.ofFn fun i : Fin newCount =>
      if (i : ℕ) < preserveCount then
        store.positions.getD i (0, 0, 0)
      else
        let src := Nat.floor (u i * preserveCount)
        let p := store.positions.getD src (0, 0, 0)
        (p.1 + (jx i - 0.5) * offsetScale, p.2.1 + (jy i - 0.5) * offsetScale, 0)
    velocities := List.ofFn fun i : Fin newCount =>
      if (i : ℕ) < preserveCount then
        store.velocities.getD i (0, 0)
      else
        let src := Nat.floor (u i * preserveCount)
        let v := store.velocities.getD src (0, 0)
        (v.1 * 0.5, v.2 * 0.5) }

end

/-! ## Theorems -/

/-- C1: for every `x, y, m, n` and coefficients `a, b`, the field function
returns `a·sin(π·n·x')·sin(π·m·y') + b·sin(π·m·x')·sin(π·n·y')` with
`x' = (x+1)/2`, `y' = (y+1)/2`; as a Lean function over `ℝ` it is pure,
deterministic and total over all real inputs. -/
theorem chladni_field_formula (x y m n a b : ℝ) :
    chladni x y m n a b =
      a * Real.sin (Real.pi * n * ((x + 1) / 2)) * Real.sin (Real.pi * m * ((y + 1) / 2)) +
        b * Real.sin (Real.pi * m * ((x + 1) / 2)) * Real.sin (Real.pi * n * ((y + 1) / 2)) := by
  simp only [chladni, PI]
  ring

/-- C7: the frequency function equals
`min(max(sqrt(m²+n²)·55·sqrt(a²+b²), 20), 2000)` and lies in `[20, 2000]` for
all parameters in the documented ranges; `frequency(1,1,0,0) = 20` and
`frequency(15,15,2,2) = 2000`. -/
theorem calculateFrequency_spec :
    (∀ m n a b : ℝ, 1 ≤ m → m ≤ 15 → 1 ≤ n → n ≤ 15 →
      -2 ≤ a → a ≤ 2 → -2 ≤ b → b ≤ 2 →
      calculateFrequency m n a b =
          min (max (Real.sqrt (m ^ 2 + n ^ 2) * 55 * Real.sqrt (a ^ 2 + b ^ 2)) 20) 2000 ∧
        20 ≤ calculateFrequency m n a b ∧ calculateFrequency m n a b ≤ 2000) ∧
      calculateFrequency 1 1 0 0 = 20 ∧ calculateFrequency 15 15 2 2 = 2000 := by
  refine ⟨fun m n a b _ _ _ _ _ _ _ _ => ⟨?_, ?_, ?_⟩, ?_, ?_⟩
  · simp only [calculateFrequency]
    rw [show m * m + n * n = m ^ 2 + n ^ 2 by ring, show a * a + b * b = a ^ 2 + b ^ 2 by ring]
  · exact le_min (le_max_right _ _) (by norm_num)
  · exact min_le_right _ _
  · simp only [calculateFrequency]
    rw [show ((0 : ℝ) * 0 + 0 * 0) = 0 by norm_num, Real.sqrt_zero, mul_zero]
    rw [max_eq_right (by norm_num : (0 : ℝ) ≤ 20), min_eq_left (by norm_num : (20 : ℝ) ≤ 2000)]
  · simp only [calculateFrequency]
    have h450 : Real.sqrt (15 * 15 + 15 * 15) = Real.sqrt 450 := by norm_num
    have h8 : Real.sqrt ((2 : ℝ) * 2 + 2 * 2) = Real.sqrt 8 := by norm_num
    have hprod : Real.sqrt 450 * Real.sqrt 8 = 60 := by
      rw [← Real.sqrt_mul (by norm_num : (0 : ℝ) ≤ 450)]
      rw [show (450 : ℝ) * 8 = 3600 by norm_num]
      rw [show (3600 : ℝ) = 60 ^ 2 by norm_num]
      exact Real.sqrt_sq (by norm_num)
    have hval : Real.sqrt (15 * 15 + 15 * 15) * 55 * Real.sqrt ((2 : ℝ) * 2 + 2 * 2) = 3300 := by
      rw [h450, h8]
      calc Real.sqrt 450 * 55 * Real.sqrt 8 = Real.sqrt 450 * Real.sqrt 8 * 55 := by ring
        _ = 60 * 55 := by rw [hprod]
        _ = 3300 := by norm_num
    rw [hval, max_eq_left (by norm_num : (20 : ℝ) ≤ 3300),
      min_eq_right (by norm_num : (2000 : ℝ) ≤ 3300)]

/-- C8: for parameters in the documented ranges and normalized coordinates in
`[-1,1]`, the field value lies in `[-(|a|+|b|), |a|+|b|]`. -/
theorem chladni_field_bounds (m n a b x y : ℝ)
    (hm1 : 1 ≤ m) (hm2 : m ≤ 15) (hn1 : 1 ≤ n) (hn2 : n ≤ 15)
    (ha1 : -2 ≤ a) (ha2 : a ≤ 2) (hb1 : -2 ≤ b) (hb2 : b ≤ 2)
    (hx1 : -1 ≤ x) (hx2 : x ≤ 1) (hy1 : -1 ≤ y) (hy2 : y ≤ 1) :
    -(|a| + |b|) ≤ chladni x y m n a b ∧ chladni x y m n a b ≤ |a| + |b| := by
  have key : |chladni x y m n a b| ≤ |a| + |b| := by
    simp only [chladni]
    refine (abs_add _ _).trans ?_
    have h1 := Real.abs_sin_le_one (PI * n * ((x + 1) / 2))
    have h2 := Real.abs_sin_le_one (PI * m * ((y + 1) / 2))
    have h3 := Real.abs_sin_le_one (PI * m * ((x + 1) / 2))
    have h4 := Real.abs_sin_le_one (PI * n * ((y + 1) / 2))
    have e1 : |a * (Real.sin (PI * n * ((x + 1) / 2)) * Real.sin (PI * m * ((y + 1) / 2)))| ≤ |a| := by
      rw [abs_mul, abs_mul]
      exact mul_le_of_le_one_right (abs_nonneg a) (mul_le_one₀ h1 (abs_nonneg _) h2)
    have e2 : |b * (Real.sin (PI * m * ((x + 1) / 2)) * Real.sin (PI * n * ((y + 1) / 2)))| ≤ |b| := by
      rw [abs_mul, abs_mul]
      exact mul_le_of_le_one_right (abs_nonneg b) (mul_le_one₀ h3 (abs_nonneg _) h4)
    linarith
  exact abs_le.mp key

/-- C8 witness at `m = n = 1`, `a = b = 1`, `x = y = 0`. -/
theorem chladni_field_bounds_witness :
    -(|(1 : ℝ)| + |(1 : ℝ)|) ≤ chladni 0 0 1 1 1 1 ∧
      chladni 0 0 1 1 1 1 ≤ |(1 : ℝ)| + |(1 : ℝ)| :=
  chladni_field_bounds 1 1 1 1 0 0 (by norm_num) (by norm_num) (by norm_num) (by norm_num)
    (by norm_num) (by norm_num) (by norm_num) (by norm_num) (by norm_num) (by norm_num)
    (by norm_num) (by norm_num)

/-- C10: for integer mode numbers the field vanishes on the domain boundary
(`x = ±1` or `y = ±1` in normalized coordinates), so a particle sitting
exactly on the plate edge (normalized coordinate `(PLANE_SIZE/2)/(PLANE_SIZE/2) = 1`)
receives zero excitation force regardless of coefficients, vibration
strength, or audio level. -/
theorem chladni_boundary_zero (m n : ℤ) (a b t : ℝ) :
    chladni (-1) t (m : ℝ) (n : ℝ) a b = 0 ∧
      chladni 1 t (m : ℝ) (n : ℝ) a b = 0 ∧
      chladni t (-1) (m : ℝ) (n : ℝ) a b = 0 ∧
      chladni t 1 (m : ℝ) (n : ℝ) a b = 0 ∧
      ∀ vib lvl : ℝ,
        chladni (PLANE_SIZE / 2 / (PLANE_SIZE / 2)) t (m : ℝ) (n : ℝ) a b * vib *
          (1 + lvl * 2) = 0 := by
  have sin_one : ∀ k : ℤ, Real.sin (PI * (k : ℝ) * 1) = 0 := by
    intro k
    rw [PI, mul_one, mul_comm]
    exact Real.sin_int_mul_pi k
  have hedge1 : ∀ k l : ℤ, chladni 1 t (k : ℝ) (l : ℝ) a b = 0 := by
    intro k l
    simp only [chladni]
    rw [show ((1 : ℝ) + 1) / 2 = 1 by norm_num, sin_one l, sin_one k]
    ring
  refine ⟨?_, hedge1 m n, ?_, ?_, ?_⟩
  · simp only [chladni]
    rw [show ((-1 : ℝ) + 1) / 2 = 0 by norm_num]
    simp [Real.sin_zero]
  · simp only [chladni]
    rw [show ((-1 : ℝ) + 1) / 2 = 0 by norm_num]
    simp [Real.sin_zero]
  · simp only [chladni]
    rw [show ((1 : ℝ) + 1) / 2 = 1 by norm_num, sin_one m, sin_one n]
    ring
  · intro vib lvl
    rw [show PLANE_SIZE / 2 / (PLANE_SIZE / 2) = 1 by rw [PLANE_SIZE]; norm_num]
    rw [hedge1 m n]
    ring

/-! ### Helper lemmas about the integration step -/

theorem bound_pos : (0 : ℝ) < bound := by
  rw [bound, PLANE_SIZE]; norm_num

theorem bound_le_half_plane : bound ≤ PLANE_SIZE / 2 := by
  rw [bound]; norm_num

/-- After the boundary-reflection stage the coordinate is within `bound`. -/
theorem abs_reflect1D_fst_le (c v : ℝ) : |(reflect1D c v).1| ≤ bound := by
  rw [reflect1D]
  split_ifs with h
  · have hc : c ≠ 0 := by
      intro h0
      rw [h0, abs_zero] at h
      exact absurd h (not_lt.mpr bound_pos.le)
    rcases hc.lt_or_lt with hneg | hpos
    · rw [Real.sign_of_neg hneg]
      rw [show (-1 : ℝ) * bound = -bound by ring, abs_neg, abs_of_pos bound_pos]
    · rw [Real.sign_of_pos hpos, one_mul, abs_of_pos bound_pos]
  · exact not_lt.mp h

/-- The boundary reflection never increases a velocity component's magnitude. -/
theorem abs_reflect1D_snd_le (c v : ℝ) : |(reflect1D c v).2| ≤ |v| := by
  rw [reflect1D]
  split_ifs with h
  · rw [abs_mul]
    refine mul_le_of_le_one_right (abs_nonneg v) ?_
    rw [bounceDamping, abs_neg, abs_of_pos (show (0 : ℝ) < 0.7 by norm_num)]
    norm_num
  · exact le_refl _

/-- The boundary reflection of a zero velocity component is zero. -/
theorem reflect1D_snd_zero (c : ℝ) : (reflect1D c 0).2 = 0 := by
  rw [reflect1D]
  split_ifs <;> simp

theorem speedOf_nonneg (vx vy : ℝ) : 0 ≤ speedOf vx vy :=
  Real.sqrt_nonneg _

/-- Scaling both velocity components scales the speed by the factor's
absolute value. -/
theorem speedOf_mul (c vx vy : ℝ) : speedOf (vx * c) (vy * c) = |c| * speedOf vx vy := by
  rw [speedOf, speedOf]
  rw [show vx * c * (vx * c) + vy * c * (vy * c) = c ^ 2 * (vx * vx + vy * vy) by ring]
  rw [Real.sqrt_mul (sq_nonneg c), Real.sqrt_sq_eq_abs]

/-- Componentwise domination of magnitudes gives speed domination. -/
theorem speedOf_le_speedOf {a b c d : ℝ} (h1 : |a| ≤ |c|) (h2 : |b| ≤ |d|) :
    speedOf a b ≤ speedOf c d := by
  apply Real.sqrt_le_sqrt
  have ha : a * a ≤ c * c := by
    rw [← abs_mul_abs_self a, ← abs_mul_abs_self c]
    exact mul_self_le_mul_self (abs_nonneg a) h1
  have hb : b * b ≤ d * d := by
    rw [← abs_mul_abs_self b, ← abs_mul_abs_self d]
    exact mul_self_le_mul_self (abs_nonneg b) h2
  linarith

/-- One inactive damping stage shrinks the speed by at least the factor 0.85. -/
theorem inactiveDamp_speed_le (vx vy : ℝ) :
    speedOf (inactiveDamp vx vy).1 (inactiveDamp vx vy).2 ≤ 0.85 * speedOf vx vy := by
  rw [inactiveDamp]
  split_ifs with h
  · have hd0 : (0 : ℝ) ≤ max 0.5 (1 - speedOf (vx * 0.85) (vy * 0.85) * 2) :=
      le_trans (by norm_num) (le_max_left _ _)
    have hd1 : max 0.5 (1 - speedOf (vx * 0.85) (vy * 0.85) * 2) ≤ 1 := by
      apply max_le (by norm_num)
      have := speedOf_nonneg (vx * 0.85) (vy * 0.85)
      linarith
    calc speedOf (vx * 0.85 * max 0.5 (1 - speedOf (vx * 0.85) (vy * 0.85) * 2))
          (vy * 0.85 * max 0.5 (1 - speedOf (vx * 0.85) (vy * 0.85) * 2))
        = |max 0.5 (1 - speedOf (vx * 0.85) (vy * 0.85) * 2)| * speedOf (vx * 0.85) (vy * 0.85) :=
          speedOf_mul _ _ _
      _ = |max 0.5 (1 - speedOf (vx * 0.85) (vy * 0.85) * 2)| * (|(0.85 : ℝ)| * speedOf vx vy) := by
          rw [speedOf_mul]
      _ ≤ 1 * (|(0.85 : ℝ)| * speedOf vx vy) := by
          apply mul_le_mul_of_nonneg_right (by rwa [abs_of_nonneg hd0])
          exact mul_nonneg (abs_nonneg _) (speedOf_nonneg _ _)
      _ = 0.85 * speedOf vx vy := by rw [one_mul, abs_of_nonneg (by norm_num : (0 : ℝ) ≤ 0.85)]
  · have h0 : speedOf 0 0 = 0 := by
      rw [speedOf]
      norm_num
    rw [h0]
    exact mul_nonneg (by norm_num) (speedOf_nonneg _ _)

/-- If the damped speed is already at or below the 0.001 threshold, the
inactive branch snaps the velocity to exactly (0, 0). -/
theorem inactiveDamp_snap (vx vy : ℝ) (h : 0.85 * speedOf vx vy ≤ 0.001) :
    inactiveDamp vx vy = (0, 0) := by
  rw [inactiveDamp]
  rw [if_neg]
  rw [not_lt, speedOf_mul, abs_of_nonneg (by norm_num : (0 : ℝ) ≤ 0.85)]
  exact h

/-- An audio-inactive step shrinks the particle's speed by at least 0.85. -/
theorem stepWith_speed_le (i : StepInput) (h : ¬ audioActive i) (s : ParticleState) :
    speedOf (stepWith i s).vx (stepWith i s).vy ≤ 0.85 * speedOf s.vx s.vy := by
  have h' : ¬(i.audioEnabled = true ∧ i.audioLevel > 0.01) := h
  rw [stepWith, stepParticle]
  simp only [if_neg h']
  refine le_trans (speedOf_le_speedOf (abs_reflect1D_snd_le _ _) (abs_reflect1D_snd_le _ _)) ?_
  exact inactiveDamp_speed_le s.vx s.vy

/-- Over an audio-inactive input stream the speed decays geometrically. -/
theorem stepN_speed_le (inp : ℕ → StepInput) (h : ∀ k, ¬ audioActive (inp k))
    (s : ParticleState) (n : ℕ) :
    speedOf (stepN inp n s).vx (stepN inp n s).vy ≤ 0.85 ^ n * speedOf s.vx s.vy := by
  induction n with
  | zero => rw [stepN, pow_zero, one_mul]
  | succ m ih =>
      have hstep := stepWith_speed_le (inp m) (h m) (stepN inp m s)
      have : (0.85 : ℝ) * speedOf (stepN inp m s).vx (stepN inp m s).vy ≤
          0.85 * (0.85 ^ m * speedOf s.vx s.vy) :=
        mul_le_mul_of_nonneg_left ih (by norm_num)
      calc speedOf (stepN inp (m + 1) s).vx (stepN inp (m + 1) s).vy
          ≤ 0.85 * speedOf (stepN inp m s).vx (stepN inp m s).vy := hstep
        _ ≤ 0.85 * (0.85 ^ m * speedOf s.vx s.vy) := this
        _ = 0.85 ^ (m + 1) * speedOf s.vx s.vy := by rw [pow_succ]; ring

/-- C2: from any start inside the domain square, after each of up to 1,000
integration steps (arbitrary pattern parameters, audio levels and
audio-active flags per step) the particle's position satisfies
`|x|, |y| ≤ bound = PLANE_SIZE/2 - 0.01`, hence `|x|, |y| ≤ PLANE_SIZE/2`;
the containment is enforced by the boundary-reflection stage of every step. -/
theorem step_domain_containment (inp : ℕ → StepInput) (s : ParticleState) (k : ℕ)
    (hk1 : 1 ≤ k) (hk2 : k ≤ 1000)
    (hx : |s.x| ≤ PLANE_SIZE / 2) (hy : |s.y| ≤ PLANE_SIZE / 2) :
    (|(stepN inp k s).x| ≤ bound ∧ |(stepN inp k s).y| ≤ bound) ∧
      |(stepN inp k s).x| ≤ PLANE_SIZE / 2 ∧ |(stepN inp k s).y| ≤ PLANE_SIZE / 2 := by
  obtain ⟨m, rfl⟩ : ∃ m, k = m + 1 := ⟨k - 1, by omega⟩
  have key : ∀ (j : StepInput) (t : ParticleState),
      |(stepWith j t).x| ≤ bound ∧ |(stepWith j t).y| ≤ bound := by
    intro j t
    rw [stepWith, stepParticle]
    exact ⟨abs_reflect1D_fst_le _ _, abs_reflect1D_fst_le _ _⟩
  have h1 : stepN inp (m + 1) s = stepWith (inp m) (stepN inp m s) := rfl
  rw [h1]
  obtain ⟨ha, hb⟩ := key (inp m) (stepN inp m s)
  exact ⟨⟨ha, hb⟩, ha.trans bound_le_half_plane, hb.trans bound_le_half_plane⟩

/-- C2 witness: 1,000 steps of a concrete inactive input stream from the
origin. -/
theorem step_domain_containment_witness :
    (|(stepN (fun _ => ⟨PARAMS, false, 0, 0⟩) 1000 ⟨0, 0, 0, 0⟩).x| ≤ bound ∧
      |(stepN (fun _ => ⟨PARAMS, false, 0, 0⟩) 1000 ⟨0, 0, 0, 0⟩).y| ≤ bound) ∧
      |(stepN (fun _ => ⟨PARAMS, false, 0, 0⟩) 1000 ⟨0, 0, 0, 0⟩).x| ≤ PLANE_SIZE / 2 ∧
      |(stepN (fun _ => ⟨PARAMS, false, 0, 0⟩) 1000 ⟨0, 0, 0, 0⟩).y| ≤ PLANE_SIZE / 2 :=
  step_domain_containment (fun _ => ⟨PARAMS, false, 0, 0⟩) ⟨0, 0, 0, 0⟩ 1000
    (by norm_num) (by norm_num)
    (by rw [show (⟨0, 0, 0, 0⟩ : ParticleState).x = 0 from rfl, abs_zero, PLANE_SIZE]; norm_num)
    (by rw [show (⟨0, 0, 0, 0⟩ : ParticleState).y = 0 from rfl, abs_zero, PLANE_SIZE]; norm_num)

/-- C4: with audio inactive at every step, once `0.85^n · speed₀ ≤ 0.001`
(so `n` of order `log speed₀`), both velocity components are exactly 0 after
`n ≥ 1` steps: each inactive step multiplies the speed by at most 0.85 and
the final step's snap branch sets the velocity to exactly (0, 0). -/
theorem idle_damping_convergence (inp : ℕ → StepInput) (s : ParticleState) (n : ℕ)
    (hinactive : ∀ k, ¬ audioActive (inp k)) (hn : 1 ≤ n)
    (hdecay : (0.85 : ℝ) ^ n * speedOf s.vx s.vy ≤ 0.001) :
    (stepN inp n s).vx = 0 ∧ (stepN inp n s).vy = 0 := by
  obtain ⟨m, rfl⟩ : ∃ m, n = m + 1 := ⟨n - 1, by omega⟩
  have hspeed : speedOf (stepN inp m s).vx (stepN inp m s).vy ≤ 0.85 ^ m * speedOf s.vx s.vy :=
    stepN_speed_le inp hinactive s m
  have hsnap : inactiveDamp (stepN inp m s).vx (stepN inp m s).vy = (0, 0) := by
    apply inactiveDamp_snap
    have h1 : (0.85 : ℝ) * speedOf (stepN inp m s).vx (stepN inp m s).vy ≤
        0.85 * (0.85 ^ m * speedOf s.vx s.vy) :=
      mul_le_mul_of_nonneg_left hspeed (by norm_num)
    have h2 : (0.85 : ℝ) * (0.85 ^ m * speedOf s.vx s.vy) =
        0.85 ^ (m + 1) * speedOf s.vx s.vy := by
      rw [pow_succ]; ring
    linarith
  have hcond : ¬((inp m).audioEnabled = true ∧ (inp m).audioLevel > 0.01) := hinactive m
  have h1 : stepN inp (m + 1) s = stepWith (inp m) (stepN inp m s) := rfl
  rw [h1, stepWith, stepParticle]
  simp only [if_neg hcond, hsnap]
  exact ⟨reflect1D_snd_zero _, reflect1D_snd_zero _⟩

/-- C4 witness: a particle with initial velocity (1, 0) is exactly at rest
after 50 inactive steps, since `0.85^50 ≤ 0.001`. -/
theorem idle_damping_convergence_witness :
    (stepN (fun _ => ⟨PARAMS, false, 0, 0⟩) 50 ⟨0, 0, 1, 0⟩).vx = 0 ∧
      (stepN (fun _ => ⟨PARAMS, false, 0, 0⟩) 50 ⟨0, 0, 1, 0⟩).vy = 0 :=
  idle_damping_convergence (fun _ => ⟨PARAMS, false, 0, 0⟩) ⟨0, 0, 1, 0⟩ 50
    (fun _ => by simp [audioActive])
    (by norm_num)
    (by
      have h1 : speedOf (⟨0, 0, 1, 0⟩ : ParticleState).vx (⟨0, 0, 1, 0⟩ : ParticleState).vy = 1 := by
        rw [show (⟨0, 0, 1, 0⟩ : ParticleState).vx = 1 from rfl,
          show (⟨0, 0, 1, 0⟩ : ParticleState).vy = 0 from rfl, speedOf,
          show (1 : ℝ) * 1 + 0 * 0 = 1 by norm_num, Real.sqrt_one]
      rw [h1, mul_one]
      norm_num)

/-- One audio-inactive step on a particle with velocity (1, 0) that starts
beyond the right wall: the two damping stages yield vx = 0.85 · 0.5 = 0.425,
then the wall clamps x to `bound` and multiplies vx by -0.7, giving -0.2975. -/
theorem step_bounce_eval (P : ChladniParams) (lvl ang δ : ℝ) (s : ParticleState)
    (hδ : 0 < δ) (hx : s.x = bound + δ) (hvx : s.vx = 1) (hvy : s.vy = 0) :
    (stepParticle P false lvl ang s).x = bound ∧
      (stepParticle P false lvl ang s).vx = -0.2975 := by
  have hcond : ¬((false : Bool) = true ∧ lvl > 0.01) := by simp
  have hdamp : inactiveDamp (1 : ℝ) 0 = (0.425, 0) := by
    rw [inactiveDamp]
    have hs : speedOf (1 * 0.85) (0 * 0.85) = 0.85 := by
      rw [speedOf, show (1 : ℝ) * 0.85 * (1 * 0.85) + 0 * 0.85 * (0 * 0.85) = 0.85 * 0.85 by norm_num]
      exact Real.sqrt_mul_self (by norm_num)
    rw [hs, if_pos (show (0.85 : ℝ) > 0.001 by norm_num),
      show max (0.5 : ℝ) (1 - 0.85 * 2) = 0.5 from max_eq_left (by norm_num)]
    norm_num
  simp only [stepParticle, if_neg hcond, hvx, hvy, hdamp, hx]
  have hpos : (0 : ℝ) < bound + δ + 0.425 := by
    have := bound_pos
    linarith
  have hgt : |bound + δ + 0.425| > bound := by
    have h1 : bound < bound + δ + 0.425 := by linarith
    exact lt_of_lt_of_le h1 (le_abs_self _)
  constructor
  · rw [reflect1D, if_pos hgt, Real.sign_of_pos hpos, one_mul]
  · rw [reflect1D, if_pos hgt, bounceDamping]
    norm_num

/-- C3 counterexample: at δ = 1 with audio inactive and default parameters,
the post-step state has x = bound but vx = -0.2975, not -0.7: the damping
stages run before the bounce, so the bounce flips 0.425, not 1. -/
theorem boundary_bounce_claim_false :
    ¬((stepParticle PARAMS false 0 0 ⟨bound + 1, 0, 1, 0⟩).x = bound ∧
      (stepParticle PARAMS false 0 0 ⟨bound + 1, 0, 1, 0⟩).vx = -0.7) := by
  intro hclaim
  have h := step_bounce_eval PARAMS 0 0 1 ⟨bound + 1, 0, 1, 0⟩ (by norm_num) rfl rfl rfl
  have hv := hclaim.2
  rw [h.2] at hv
  norm_num at hv

/-- C3 (amended): for every δ > 0, a particle entering an audio-inactive step
at x = bound + δ with vx = +1 (and vy = 0) finishes the step with exactly
x = bound and vx = 0.85 · 0.5 · (-0.7) = -0.2975 — the step damps the
velocity before the bounce, so the restitution factor -0.7 acts on the damped
velocity 0.425, not on the incoming +1. -/
theorem boundary_bounce_amended (P : ChladniParams) (lvl ang δ y : ℝ) (hδ : 0 < δ) :
    (stepParticle P false lvl ang ⟨bound + δ, y, 1, 0⟩).x = bound ∧
      (stepParticle P false lvl ang ⟨bound + δ, y, 1, 0⟩).vx = -0.2975 :=
  step_bounce_eval P lvl ang δ ⟨bound + δ, y, 1, 0⟩ hδ rfl rfl rfl

/-- C3 (amended) witness at δ = 1. -/
theorem boundary_bounce_amended_witness :
    (stepParticle PARAMS false 0.5 2 ⟨bound + 1, 0.3, 1, 0⟩).x = bound ∧
      (stepParticle PARAMS false 0.5 2 ⟨bound + 1, 0.3, 1, 0⟩).vx = -0.2975 :=
  boundary_bounce_amended PARAMS 0.5 2 1 0.3 (by norm_num)

/-- Indexing one frame's store update: entry `i` of the updated store is the
step applied to entry `i` of the input store with its own random draw. -/
theorem stepStore_getElem (P : ChladniParams) (e : Bool) (lvl : ℝ) (angles : ℕ → ℝ)
    (store : List ParticleState) (i : ℕ) :
    (stepStore P e lvl angles store)[i]? =
      Option.map (stepParticle P e lvl (angles i)) store[i]? := by
  rw [stepStore, List.getElem?_ofFn, List.ofFnNthVal]
  by_cases h : i < store.length
  · rw [dif_pos h, List.getElem?_eq_getElem h]
    rfl
  · rw [dif_neg h, List.getElem?_eq_none (not_lt.mp h)]
    rfl

/-- C9: one frame's update of particle `i` depends only on particle `i`'s own
state, the shared parameters/audio inputs, and particle `i`'s random draw —
two stores agreeing at index `i` (all other entries arbitrary) produce the
same entry `i` after the frame. -/
theorem step_no_interparticle_coupling (P : ChladniParams) (e : Bool) (lvl : ℝ)
    (angles : ℕ → ℝ) (s t : List ParticleState) (i : ℕ) (p : ParticleState)
    (hs : s[i]? = some p) (ht : t[i]? = some p) :
    (stepStore P e lvl angles s)[i]? = (stepStore P e lvl angles t)[i]? := by
  rw [stepStore_getElem, stepStore_getElem, hs, ht]

/-- C9 witness: two 2-particle stores that agree only at index 0. -/
theorem step_no_interparticle_coupling_witness :
    (([⟨0, 0, 0, 0⟩, ⟨1, 1, 0, 0⟩] : List ParticleState)[0]? = some ⟨0, 0, 0, 0⟩ ∧
      ([⟨0, 0, 0, 0⟩, ⟨0.5, -0.5, 0.2, 0.1⟩] : List ParticleState)[0]? = some ⟨0, 0, 0, 0⟩) ∧
      (stepStore PARAMS false 0 (fun _ => 0) [⟨0, 0, 0, 0⟩, ⟨1, 1, 0, 0⟩])[0]? =
        (stepStore PARAMS false 0 (fun _ => 0) [⟨0, 0, 0, 0⟩, ⟨0.5, -0.5, 0.2, 0.1⟩])[0]? :=
  ⟨⟨rfl, rfl⟩,
    step_no_interparticle_coupling PARAMS false 0 (fun _ => 0) _ _ 0 ⟨0, 0, 0, 0⟩ rfl rfl⟩

/-- C5: a resize copies every particle below `min(oldCount, newCount)`
verbatim — positions (all three stored coordinates) and velocities — and the
rebuilt arrays have exactly the new count. -/
theorem resize_preserves_old_particles (store : Store) (newCount : ℕ) (u jx jy : ℕ → ℝ)
    (hv : store.velocities.length = store.positions.length)
    (i : ℕ) (hi : i < min store.positions.length newCount) :
    (resizeStore store newCount u jx jy).positions[i]? = store.positions[i]? ∧
      (resizeStore store newCount u jx jy).velocities[i]? = store.velocities[i]? ∧
      (resizeStore store newCount u jx jy).positions.length = newCount ∧
      (resizeStore store newCount u jx jy).velocities.length = newCount := by
  have hiN : i < newCount := lt_of_lt_of_le hi (min_le_right _ _)
  have hiP : i < store.positions.length := lt_of_lt_of_le hi (min_le_left _ _)
  have hiV : i < store.velocities.length := by rw [hv]; exact hiP
  refine ⟨?_, ?_, ?_, ?_⟩
  · simp only [resizeStore, List.getElem?_ofFn, List.ofFnNthVal]
    rw [dif_pos hiN]
    rw [if_pos
      (show ((⟨i, hiN⟩ : Fin newCount) : ℕ) < min store.positions.length newCount from hi)]
    rw [List.getD_eq_getElem store.positions (0, 0, 0) hiP]
    rw [List.getElem?_eq_getElem hiP]
  · simp only [resizeStore, List.getElem?_ofFn, List.ofFnNthVal]
    rw [dif_pos hiN]
    rw [if_pos
      (show ((⟨i, hiN⟩ : Fin newCount) : ℕ) < min store.positions.length newCount from hi)]
    rw [List.getD_eq_getElem store.velocities (0, 0) hiV]
    rw [List.getElem?_eq_getElem hiV]
  · simp only [resizeStore, List.length_ofFn]
  · simp only [resizeStore, List.length_ofFn]

/-- C5 witness: growing a one-particle store to two particles keeps particle 0
bit-identical. -/
theorem resize_preserves_old_particles_witness :
    (resizeStore ⟨[(0.3, -0.2, 0)], [(0.1, 0.4)]⟩ 2 (fun _ => 0) (fun _ => 0)
        (fun _ => 0)).positions[0]? = ([((0.3 : ℝ), (-0.2 : ℝ), (0 : ℝ))])[0]? ∧
      (resizeStore ⟨[(0.3, -0.2, 0)], [(0.1, 0.4)]⟩ 2 (fun _ => 0) (fun _ => 0)
        (fun _ => 0)).velocities[0]? = ([((0.1 : ℝ), (0.4 : ℝ))])[0]? ∧
      (resizeStore ⟨[(0.3, -0.2, 0)], [(0.1, 0.4)]⟩ 2 (fun _ => 0) (fun _ => 0)
        (fun _ => 0)).positions.length = 2 ∧
      (resizeStore ⟨[(0.3, -0.2, 0)], [(0.1, 0.4)]⟩ 2 (fun _ => 0) (fun _ => 0)
        (fun _ => 0)).velocities.length = 2 :=
  resize_preserves_old_particles ⟨[(0.3, -0.2, 0)], [(0.1, 0.4)]⟩ 2
    (fun _ => 0) (fun _ => 0) (fun _ => 0) rfl 0 (by norm_num)

/-- The field value at the plate centre with `m = n = 1`, `a = 1`, `b = 0`
is `sin(π/2)² = 1`. -/
theorem chladni_center_value : chladni 0 0 1 1 1 0 = 1 := by
  rw [chladni]
  rw [show ((0 : ℝ) + 1) / 2 = 1 / 2 by norm_num]
  rw [show PI * 1 * (1 / 2) = Real.pi / 2 by rw [PI]; ring]
  rw [Real.sin_pi_div_two]
  norm_num

/-- C6 (code behaviour at the failing input): the integrator applies the raw
audio level with no clamp — `force = value·vibrationStrength·(1 + audioLevel·2)`
— so the velocity written by a single step grows without bound in the audio
level: for every target `B` there is a level (far outside the documented
range) whose step writes a velocity component exceeding `B`.  No sanitization
of the audio level exists anywhere in the step. -/
theorem audio_force_unclamped (B : ℝ) :
    ∃ lvl : ℝ, lvl > 0.01 ∧
      |(stepParticle ⟨1, 1, 1, 0, 0.1⟩ true lvl 0 ⟨0, 0, 0, 0⟩).vx| > B := by
  have hB : 0 ≤ |B| := abs_nonneg B
  refine ⟨100 + 130 * |B|, by linarith, ?_⟩
  have hkick : activeKick ⟨1, 1, 1, 0, 0.1⟩ (100 + 130 * |B|) 0 0 0 0 0 =
      (0.00595 * (1 + (100 + 130 * |B|) * 2), 0) := by
    simp only [activeKick]
    rw [chladni_center_value, Real.cos_zero, Real.sin_zero]
    simp only [Prod.mk.injEq]
    constructor <;> ring
  have hbv : bound = 1.19 := by rw [bound, PLANE_SIZE]; norm_num
  have hq : (0.00595 : ℝ) * (1 + (100 + 130 * |B|) * 2) > bound := by
    rw [hbv]
    nlinarith
  simp only [stepParticle, zero_div]
  rw [if_pos (show True ∧ (100 : ℝ) + 130 * |B| > 0.01 from ⟨trivial, by linarith⟩), hkick]
  show |(reflect1D (0 + 0.00595 * (1 + (100 + 130 * |B|) * 2))
      (0.00595 * (1 + (100 + 130 * |B|) * 2))).2| > B
  rw [zero_add, reflect1D,
    if_pos (lt_of_lt_of_le hq (le_abs_self _)), bounceDamping]
  rw [show (0.00595 : ℝ) * (1 + (100 + 130 * |B|) * 2) * (-0.7) =
      -(0.00595 * (1 + (100 + 130 * |B|) * 2) * 0.7) by ring]
  rw [abs_neg, abs_of_pos (by nlinarith : (0 : ℝ) < 0.00595 * (1 + (100 + 130 * |B|) * 2) * 0.7)]
  nlinarith [le_abs_self B]

/-- C7 witness at the default pattern `m = 3, n = 2, a = b = 1`. -/
theorem calculateFrequency_spec_witness :
    calculateFrequency 3 2 1 1 =
        min (max (Real.sqrt ((3 : ℝ) ^ 2 + (2 : ℝ) ^ 2) * 55 *
          Real.sqrt ((1 : ℝ) ^ 2 + (1 : ℝ) ^ 2)) 20) 2000 ∧
      20 ≤ calculateFrequency 3 2 1 1 ∧ calculateFrequency 3 2 1 1 ≤ 2000 :=
  calculateFrequency_spec.1 3 2 1 1 (by norm_num) (by norm_num) (by norm_num) (by norm_num)
    (by norm_num) (by norm_num) (by norm_num) (by norm_num)
